import Mathlib

/-!
A shallow embedding in Lean 4 of the wind-farm digital-twin repository
(`src/wind_farm_twin`), together with proofs of the behavioural properties
claimed for it.

Modelling conventions:

* Python floats in the purely arithmetic parts (power curve, pipeline row
  values) are modelled as `ℚ` so that everything is executable; the parts
  that use `exp`/`sin`/`cos` (wake model, wind field) are modelled over `ℝ`.
* A float `NaN` (a missing measurement) is modelled as `none` in an
  `Option` value; pandas `isna` is `Option.isNone`, and the pandas
  semantics "comparisons with NaN are false" is reproduced by matching on
  the option before comparing.
* Timestamps are epoch milliseconds (`ℤ`).  The bronze/silver jobs floor
  timestamps to the millisecond on ingest, so rows carry already-floored
  values.  The ISO hour string `"%Y-%m-%dT%H:00:00Z"` produced by
  `dt.floor("h")` + `strftime` is injective on hours, so the hour-bucket
  key is modelled by the floored hour number `Int.fdiv t 3600000`
  (pandas floors toward negative infinity), and the `"|"`-joined process
  key string by the corresponding tuple.
* The numpy `default_rng(seed)` generator is deterministic given its seed
  and is consumed in strict call order; it is modelled as a function
  `ℕ → ℝ` from draw position to draw, obtained from an arbitrary
  seed-indexed family `ℕ → ℕ → ℝ`, plus an explicit position counter.
* The parquet table stores are modelled as in-memory lists of typed rows;
  a write that raises is modelled by a `writeOk : Bool` parameter on the
  stage functions, with the failing branch returning the state it had
  reached when the write was attempted (the stage re-raises and performs
  no further effect, exactly as the Python code does).
-/

namespace WindFarmTwin

/-! ### Power curve — `models/turbine_powercurve.py`

The power curve is pure field arithmetic plus comparisons, so it is
defined generically over a linear ordered field: the pipeline uses it at
`ℚ` (executable) and the generator at `ℝ`. -/

structure PowerCurve (α : Type) where
  cut_in_mps : α
  rated_mps : α
  cut_out_mps : α

/-- Default parameters of the `PowerCurve` dataclass (3.0, 12.0, 25.0). -/
def defaultPowerCurve : PowerCurve ℚ := ⟨3, 12, 25⟩

/-- Translation of `PowerCurve.power_kw`: the guard chain is in source
order (`>= cut_out`, then `< cut_in`, then `< rated`, else rated power). -/
def PowerCurve.power_kw {α : Type} [LinearOrderedField α] (pc : PowerCurve α)
    (wind_speed_mps rated_power_kw : α) : α × String :=
  let v := wind_speed_mps
  if v ≥ pc.cut_out_mps then (0, "CUT_OUT")
  else if v < pc.cut_in_mps then (0, "STOPPED")
  else if v < pc.rated_mps then
    let x := (v - pc.cut_in_mps) / (pc.rated_mps - pc.cut_in_mps)
    (rated_power_kw * x ^ 3, "RUNNING")
  else (rated_power_kw, "RUNNING")

/-! ### Farm layout — `models/farm_layout.py` -/

structure Turbine where
  turbine_id : String
  x_m : ℝ
  y_m : ℝ
  rated_power_kw : ℝ := 2000

structure WindFarm where
  farm_id : String
  turbines : List Turbine

/-! ### Wake model — `models/wake_model.py` -/

/-- Translation of `_unit_vector_from_direction_deg` (degrees to radians,
then `(cos θ, sin θ)`). -/
noncomputable def unit_vector_from_direction_deg (direction_deg : ℝ) : ℝ × ℝ :=
  let theta := direction_deg * Real.pi / 180
  (Real.cos theta, Real.sin theta)

structure WakeModel where
  wake_strength : ℝ := 0.15
  decay_length_m : ℝ := 800
  crosswind_sigma_m : ℝ := 200

/-- Translation of the loop of `WakeModel.effective_speed`: the `continue`
branches leave the accumulated factor unchanged, an influencing source
multiplies it by `1 - loss`. -/
noncomputable def WakeModel.effective_speed (m : WakeModel)
    (free_speed_mps wind_dir_deg : ℝ) (target : Turbine)
    (turbines : List Turbine) : ℝ :=
  let u := unit_vector_from_direction_deg wind_dir_deg
  let total_factor := turbines.foldl (fun acc src =>
    if src.turbine_id = target.turbine_id then acc
    else
      let dx := target.x_m - src.x_m
      let dy := target.y_m - src.y_m
      let downwind := dx * u.1 + dy * u.2
      let crosswind := |(-dx) * u.2 + dy * u.1|
      if downwind ≤ 0 then acc
      else
        let cross_factor := Real.exp (-(crosswind ^ 2) / (2 * m.crosswind_sigma_m ^ 2))
        let dist_factor := Real.exp (-downwind / m.decay_length_m)
        let loss := m.wake_strength * cross_factor * dist_factor
        acc * (1 - loss)) 1
  max 0 (free_speed_mps * total_factor)

/-- The loop body of `WakeModel.effective_speed` with its local bindings
inlined (definitionally equal to the lambda inside `effective_speed`). -/
noncomputable def wakeStep (m : WakeModel) (u : ℝ × ℝ) (target : Turbine)
    (acc : ℝ) (src : Turbine) : ℝ :=
  if src.turbine_id = target.turbine_id then acc
  else if (target.x_m - src.x_m) * u.1 + (target.y_m - src.y_m) * u.2 ≤ 0 then acc
  else acc * (1 - m.wake_strength *
    Real.exp (-(|(-(target.x_m - src.x_m)) * u.2 + (target.y_m - src.y_m) * u.1| ^ 2) /
      (2 * m.crosswind_sigma_m ^ 2)) *
    Real.exp (-((target.x_m - src.x_m) * u.1 + (target.y_m - src.y_m) * u.2) /
      m.decay_length_m))

/-- The retained-speed factor a single source contributes in
`WakeModel.effective_speed` (1 for the skipped branches). -/
noncomputable def WakeModel.srcFactor (m : WakeModel) (u : ℝ × ℝ)
    (target src : Turbine) : ℝ :=
  if src.turbine_id = target.turbine_id then 1
  else
    let dx := target.x_m - src.x_m
    let dy := target.y_m - src.y_m
    let downwind := dx * u.1 + dy * u.2
    let crosswind := |(-dx) * u.2 + dy * u.1|
    if downwind ≤ 0 then 1
    else
      1 - m.wake_strength * Real.exp (-(crosswind ^ 2) / (2 * m.crosswind_sigma_m ^ 2)) *
        Real.exp (-downwind / m.decay_length_m)

/-- The reference wake formula, written following the spec's words: only
sources with strictly positive downwind projection contribute, each
contributes `loss = wake_strength · exp(−crosswind²/(2σ²)) · exp(−downwind/decay)`,
the retained fraction is the product of `1 − lossᵢ`, and the result is
`max 0 (free_speed · retained)`. -/
noncomputable def wakeSpecEffective (m : WakeModel)
    (free_speed_mps wind_dir_deg : ℝ) (target : Turbine)
    (turbines : List Turbine) : ℝ :=
  let u := unit_vector_from_direction_deg wind_dir_deg
  let contributing := turbines.filter (fun src =>
    decide (src.turbine_id ≠ target.turbine_id) &&
      decide (0 < (target.x_m - src.x_m) * u.1 + (target.y_m - src.y_m) * u.2))
  let retained := (contributing.map (fun src =>
    let dx := target.x_m - src.x_m
    let dy := target.y_m - src.y_m
    let downwind := dx * u.1 + dy * u.2
    let crosswind := |(-dx) * u.2 + dy * u.1|
    1 - m.wake_strength * Real.exp (-(crosswind ^ 2) / (2 * m.crosswind_sigma_m ^ 2)) *
      Real.exp (-downwind / m.decay_length_m))).prod
  max 0 (free_speed_mps * retained)

/-! ### Wind field — `models/wind_field.py` -/

structure WindFieldParams where
  base_speed_mps : ℝ := 8
  daily_variation_mps : ℝ := 4
  spatial_variation_mps : ℝ := 0.8
  noise_std_mps : ℝ := 1.6
  base_dir_deg : ℝ := 220
  dir_noise_std_deg : ℝ := 8

/-- A `WindField` instance: parameters plus the seeded generator, modelled
as the stream of standard-normal draws (`rng.normal(0, σ)` is `σ` times
the standard draw) together with the number of draws consumed so far. -/
structure WindField where
  params : WindFieldParams
  normals : ℕ → ℝ
  pos : ℕ

/-- Construction (`__post_init__` seeds the generator; no draws consumed). -/
def mkWindField (params : WindFieldParams) (normals : ℕ → ℝ) : WindField :=
  ⟨params, normals, 0⟩

/-- Construction from a seed, given the (arbitrary, deterministic)
seed-indexed family of standard-normal streams that models
`np.random.default_rng`. -/
def mkWindFieldSeeded (normalStream : ℕ → ℕ → ℝ) (params : WindFieldParams)
    (seed : ℕ) : WindField :=
  mkWindField params (normalStream seed)

/-- Python's float `%` operator: `x - y·⌊x/y⌋`. -/
noncomputable def floatMod (x y : ℝ) : ℝ := x - y * (⌊x / y⌋ : ℝ)

/-- Translation of `WindField.get_wind_at_turbine`.  The two `rng.normal`
calls consume draws `pos` and `pos + 1`, in call order. -/
noncomputable def WindField.get_wind_at_turbine (w : WindField)
    (t_seconds x_m y_m : ℝ) : (ℝ × ℝ) × WindField :=
  let p := w.params
  let daily_cycle := Real.sin (2 * Real.pi * (t_seconds / 3600) / 24)
  let base := p.base_speed_mps + p.daily_variation_mps * daily_cycle
  let spacial_bias := p.spatial_variation_mps * (0.0005 * x_m - 0.0003 * y_m)
  let speed := max 0 (base + spacial_bias + p.noise_std_mps * w.normals w.pos)
  let direction := floatMod (p.base_dir_deg + p.dir_noise_std_deg * w.normals (w.pos + 1)) 360
  ((speed, direction), { w with pos := w.pos + 2 })

/-- Run a sequence of `get_wind_at_turbine` calls (each call is a
`(t_seconds, x_m, y_m)` triple), threading the generator state, and
collect the returned `(speed, direction)` pairs. -/
noncomputable def WindField.runCalls (w : WindField) :
    List (ℝ × ℝ × ℝ) → List (ℝ × ℝ)
  | [] => []
  | c :: cs =>
    let r := w.get_wind_at_turbine c.1 c.2.1 c.2.2
    r.1 :: r.2.runCalls cs

/-! ### Telemetry generator — `sim/telemetry_generator.py` -/

/-- One generated telemetry record.  `wind_speed_mps = none` models the
injected NaN; times are rational seconds. -/
structure GenRow where
  event_time : ℚ
  farm_id : String
  turbine_id : String
  wind_speed_free_mps : ℝ
  wind_speed_mps : Option ℝ
  wind_dir_deg : ℝ
  power_kw : ℝ
  rotor_speed_rpm : ℝ
  yaw_deg : ℝ
  status : String
  sim_run_id : String
  ingest_time : ℚ
  source : String

/-- Translation of the per-`(step, turbine)` row assembly in
`TelemetryGenerator.generate` (power/status, rotor speed and yaw are
derived from the effective wind speed before any injection; the three
injection bands are then tested, in source order, against the single
uniform draw `r`, `inject = none` meaning injection disabled so no draw
is consumed). -/
noncomputable def genRow (pc : PowerCurve ℝ) (farm_id sim_run_id source : String)
    (turb : Turbine) (t ingest_t : ℚ) (free_speed wind_dir wind_speed : ℝ)
    (inject : Option ℝ) : GenRow :=
  let pk := pc.power_kw wind_speed turb.rated_power_kw
  let rotor_rpm : ℝ := if pk.2 ≠ "RUNNING" then 0 else 6 + (min wind_speed 12 - 3) * (12 / 9)
  let yaw := wind_dir
  let wp : Option ℝ × ℝ :=
    match inject with
    | none => (some wind_speed, pk.1)
    | some r =>
      let ws₁ : Option ℝ := if r < 0.002 then none else some wind_speed
      let ws₂ : Option ℝ := if 0.002 ≤ r ∧ r < 0.004 then some (-5) else ws₁
      let pw₂ : ℝ := if 0.004 ≤ r ∧ r < 0.0055 then 99999 else pk.1
      (ws₂, pw₂)
  { event_time := t
    farm_id := farm_id
    turbine_id := turb.turbine_id
    wind_speed_free_mps := free_speed
    wind_speed_mps := wp.1
    wind_dir_deg := wind_dir
    power_kw := wp.2
    rotor_speed_rpm := rotor_rpm
    yaw_deg := yaw
    status := pk.2
    sim_run_id := sim_run_id
    ingest_time := ingest_t
    source := source }

/-- The generator dataclass: farm, models, identifiers, and the uniform
stream of its own seeded rng (`self.rng.random()` draws, in call order). -/
structure TelemetryGenerator where
  farm : WindFarm
  wind_field : WindField
  power_curve : PowerCurve ℝ
  wake_model : Option WakeModel := none
  sim_run_id : String := "SIM-001"
  source : String := "simulator"
  uniform : ℕ → ℝ

/-- Translation of the nested loop of `TelemetryGenerator.generate`
(lines 40–101): steps × turbines, threading the wind-field generator and
the uniform-draw position; `ingest_now` supplies the wall-clock
`datetime.now` value for each successive row.  The deliberate
duplicate-append performed after the loop (a separate `rng.choice`) is
outside this fragment. -/
noncomputable def TelemetryGenerator.generateRows (g : TelemetryGenerator)
    (start_time : ℚ) (duration_hours : ℚ) (dt_seconds : ℕ)
    (inject_issues : Bool) (ingest_now : ℕ → ℚ) : List GenRow :=
  let n_steps := (⌊duration_hours * 3600 / (dt_seconds : ℚ)⌋).toNat
  let out := (List.range n_steps).foldl
    (fun (acc : List GenRow × WindField × ℕ) step =>
      g.farm.turbines.foldl
        (fun (acc : List GenRow × WindField × ℕ) turb =>
          let t : ℚ := start_time + step * dt_seconds
          let t_seconds : ℚ := step * dt_seconds
          let wr := acc.2.1.get_wind_at_turbine (t_seconds : ℝ) turb.x_m turb.y_m
          let free_speed := wr.1.1
          let wind_dir := wr.1.2
          let wind_speed :=
            match g.wake_model with
            | some wm => wm.effective_speed free_speed wind_dir turb g.farm.turbines
            | none => free_speed
          let inj : Option ℝ × ℕ :=
            if inject_issues then (some (g.uniform acc.2.2), acc.2.2 + 1)
            else (none, acc.2.2)
          (acc.1 ++ [genRow g.power_curve g.farm.farm_id g.sim_run_id g.source turb t
              (ingest_now acc.1.length) free_speed wind_dir wind_speed inj.1],
            wr.2, inj.2))
        acc)
    ([], g.wind_field, 0)
  out.1

/-! ### Telemetry rows of the data lake — `io/schemas.py`, `io/silver_schema.py`

Pipeline row values are `ℚ` (`Option ℚ` where NaN can occur), timestamps
are epoch milliseconds (`ℤ`), already floored to the millisecond by the
ingest normalization. -/

structure BronzeRow where
  event_time : ℤ
  farm_id : String
  turbine_id : String
  wind_speed_free_mps : Option ℚ
  wind_speed_mps : Option ℚ
  wind_dir_deg : Option ℚ
  power_kw : Option ℚ
  rotor_speed_rpm : Option ℚ
  yaw_deg : Option ℚ
  status : String
  sim_run_id : String
  ingest_time : ℤ
  source : String
deriving DecidableEq

/-- Curated row: the bronze contract columns plus the three silver flag
columns, mirroring `silver_arrow_schema` (base schema + extras). -/
structure SilverRow where
  row : BronzeRow
  is_duplicate : Bool
  has_range_violation : Bool
  range_violation_fields : String
deriving DecidableEq

/-- Translation of `TelemetryConstraints` with its default ranges. -/
structure TelemetryConstraints where
  wind_speed_range : ℚ × ℚ := (0, 60)
  wind_dir_range : ℚ × ℚ := (0, 360)
  rotor_rpm_range : ℚ × ℚ := (0, 30)
  yaw_deg_range : ℚ × ℚ := (0, 360)
  power_kw_range : ℚ × ℚ := (0, 10000)

def defaultConstraints : TelemetryConstraints := {}

/-! ### Range flags — `SilverJob._add_range_flags`

The pandas code computes, per column, `bad = isna ∨ v < lo ∨ v > hi` and
for bad rows sets the flag and appends the column name (comma-separated)
to the accumulated string; per row this is a fold over the five checks in
their source order. -/

/-- Per-value violation test: `df[col].isna() | (df[col] < lo) | (df[col] > hi)`
(a NaN compares false, so `none` is caught only by the `isna` disjunct). -/
def fieldBad (v : Option ℚ) (lo hi : ℚ) : Bool :=
  match v with
  | none => true
  | some q => decide (q < lo) || decide (q > hi)

/-- One `flag(col, lo, hi)` call acting on the `(has_range_violation,
range_violation_fields)` pair of a single row: for a bad value the flag
is set and the name appended after a comma (no comma on an empty
accumulator, per `existing.where(existing == "", existing + ",") + col`). -/
def flagStep (acc : Bool × String) (v : Option ℚ) (lo hi : ℚ) (col : String) :
    Bool × String :=
  if fieldBad v lo hi then
    (true, (if acc.2 = "" then "" else acc.2 ++ ",") ++ col)
  else acc

/-- The five range checks of `_add_range_flags`, in source order:
value, `(lo, hi)`, column name. -/
def rangeChecks (c : TelemetryConstraints) (r : BronzeRow) :
    List (Option ℚ × (ℚ × ℚ) × String) :=
  [(r.wind_speed_mps, c.wind_speed_range, "wind_speed_mps"),
   (r.wind_dir_deg, c.wind_dir_range, "wind_dir_deg"),
   (r.rotor_speed_rpm, c.rotor_rpm_range, "rotor_speed_rpm"),
   (r.yaw_deg, c.yaw_deg_range, "yaw_deg"),
   (r.power_kw, c.power_kw_range, "power_kw")]

/-- Per-row translation of `_add_range_flags` (the flag columns are
re-initialized to `(false, "")` at the start of the method). -/
def addRangeFlags (c : TelemetryConstraints) (r : BronzeRow) : Bool × String :=
  (rangeChecks c r).foldl (fun acc ch => flagStep acc ch.1 ch.2.1.1 ch.2.1.2 ch.2.2)
    (false, "")

/-- The checks of `rangeChecks` whose value is flagged as violating. -/
def flaggedChecks (c : TelemetryConstraints) (r : BronzeRow) :
    List (Option ℚ × (ℚ × ℚ) × String) :=
  (rangeChecks c r).filter (fun ch => fieldBad ch.1 ch.2.1.1 ch.2.1.2)

/-- The names of the flagged fields, in check order. -/
def flaggedNames (c : TelemetryConstraints) (r : BronzeRow) : List String :=
  (flaggedChecks c r).map (·.2.2)

/-- Comma-joined concatenation of a list of names (the spec's description
of `range_violation_fields`). -/
def commaJoin : List String → String
  | [] => ""
  | [n] => n
  | n :: ns => n ++ "," ++ commaJoin ns

/-- The string accumulation performed by successive `flag` calls,
starting from accumulator `s`. -/
def sAppendNames (s : String) (names : List String) : String :=
  names.foldl (fun t n => (if t = "" then "" else t ++ ",") ++ n) s

/-- A curated silver row: surviving rows carry `is_duplicate = false`
(duplicates were physically dropped) plus the computed range flags. -/
def mkSilverRow (c : TelemetryConstraints) (r : BronzeRow) : SilverRow :=
  { row := r
    is_duplicate := false
    has_range_violation := (addRangeFlags c r).1
    range_violation_fields := (addRangeFlags c r).2 }

/-! ### Deduplication — `SilverJob.run`, lines 89–93

`df.sort_values(key_cols)` with several key columns is a stable
lexicographic sort (pandas uses `np.lexsort`; the `kind` option only
applies to single-column sorts), so ties keep their original arrival
order.  A stable sort by the dedup key is the same as sorting the
index-tagged rows by the pair (dedup key, original position) — a strict
total order — which is how it is embedded here.
`df.duplicated(subset=key_cols, keep="first")` then marks every row that
has an earlier row (in sorted order) with the same key, and
`drop_duplicates` removes the marked rows. -/

/-- The natural dedup key `(event_time, farm_id, turbine_id)`. -/
def dedupKey (r : BronzeRow) : ℤ × String × String :=
  (r.event_time, r.farm_id, r.turbine_id)

/-- A row tagged with its original arrival position. -/
abbrev SortEntry := ℕ × BronzeRow

/-- Sort rank: dedup key lexicographically, ties broken by arrival
position. -/
def entryRank (e : SortEntry) : ℤ ×ₗ String ×ₗ String ×ₗ ℕ :=
  toLex (e.2.event_time, toLex (e.2.farm_id, toLex (e.2.turbine_id, e.1)))

def entryLe (e e' : SortEntry) : Prop := entryRank e ≤ entryRank e'

/-- Decidability of the sort order, implemented on the character lists of
the id strings so that concrete sorts evaluate by kernel reduction
(`String.ltb` itself does not reduce). -/
instance : DecidableRel entryLe := fun e e' =>
  decidable_of_iff
    (e.2.event_time < e'.2.event_time ∨ e.2.event_time = e'.2.event_time ∧
      (e.2.farm_id.data < e'.2.farm_id.data ∨ e.2.farm_id.data = e'.2.farm_id.data ∧
        (e.2.turbine_id.data < e'.2.turbine_id.data ∨
          e.2.turbine_id.data = e'.2.turbine_id.data ∧ e.1 ≤ e'.1)))
    (by
      unfold entryLe entryRank
      rw [Prod.Lex.le_iff]
      dsimp only
      rw [Prod.Lex.le_iff]
      dsimp only
      rw [Prod.Lex.le_iff]
      dsimp only
      simp only [String.lt_iff_toList_lt, String.ext_iff, String.toList])

instance : IsTotal SortEntry entryLe := ⟨fun a b => le_total (entryRank a) (entryRank b)⟩

instance : IsTrans SortEntry entryLe := ⟨fun _ _ _ h h' => le_trans h h'⟩

/-- Drop every entry whose dedup key was already seen (i.e. every entry
after the first occurrence of its key): `duplicated(keep="first")`
followed by `drop_duplicates(keep="first")` on the sorted rows. -/
def dropDupFirst (seen : List (ℤ × String × String)) :
    List SortEntry → List SortEntry
  | [] => []
  | e :: es =>
    if dedupKey e.2 ∈ seen then dropDupFirst seen es
    else e :: dropDupFirst (dedupKey e.2 :: seen) es

/-- The deduplication block of `SilverJob.run`: stable-sort by the dedup
key, mark all records after the first occurrence of each key, remove
them. -/
def silverDedup (rows : List BronzeRow) : List BronzeRow :=
  (dropDupFirst [] (List.insertionSort entryLe rows.enum)).map Prod.snd

/-! ### The curation stage — `pipelines/silver_job.py` -/

/-- A logical processing bucket `(sim_run_id, farm_id, hour)`; the code's
`process_key` string `sim_run_id + "|" + farm_id + "|" + hour_key`. -/
abbrev PKey := String × String × ℤ

/-- Hour bucket of an epoch-millisecond timestamp (`dt.floor("h")`,
which floors toward −∞). -/
def hourOfMs (t : ℤ) : ℤ := Int.fdiv t 3600000

def pkeyOf (r : BronzeRow) : PKey := (r.sim_run_id, r.farm_id, hourOfMs r.event_time)

/-- Outcome of a stage invocation: the returned output location, or the
exception it raised. -/
inductive StageResult where
  | ok (path : String)
  | error (msg : String)
deriving DecidableEq

/-- The persistent state `SilverJob.run` touches: the bronze dataset it
reads, the silver dataset it appends to, and the persisted
`silver_processed_hours` set. -/
structure SilverState where
  bronze : List BronzeRow
  silver : List SilverRow
  processed : Finset PKey
deriving DecidableEq

/-- Translation of `SilverJob.run` (with the default constraints the job
is constructed with).  `writeOk = false` models `pq.write_to_dataset`
raising: the exception propagates before `processed.update` /
`save_set`, so the processed-set is left untouched. -/
def silverRun (writeOk : Bool) (s : SilverState) : StageResult × SilverState :=
  if s.bronze = [] then (.error "No data found in bronze.", s)
  else
    let newRows := s.bronze.filter (fun r => !decide (pkeyOf r ∈ s.processed))
    if newRows = [] then (.ok "data_lake/silver", s)
    else
      let deduped := silverDedup newRows
      let curated := deduped.map (mkSilverRow defaultConstraints)
      if writeOk then
        (.ok "data_lake/silver",
          { s with
            silver := s.silver ++ curated
            processed := s.processed ∪ (deduped.map pkeyOf).toFinset })
      else (.error "write to silver failed", s)

/-! ### The aggregation stage — `pipelines/gold_job.py` -/

/-- Output row of `run_hourly_energy`, grouped by
`(sim_run_id, farm_id, turbine_id, hour)`.  A mean over an all-NaN
column is NaN (`none`); pandas `mean`/`sum` skip NaN values. -/
structure HourlyEnergyRow where
  sim_run_id : String
  farm_id : String
  turbine_id : String
  hour : ℤ
  wind_speed_mps_avg : Option ℚ
  power_kw_avg : Option ℚ
  energy_kwh : ℚ
  downtime_minutes : ℚ
  bad_rows : ℕ
  rows : ℕ
deriving DecidableEq

/-- NaN-skipping mean (`none` when no non-null values). -/
def optMean (vals : List ℚ) : Option ℚ :=
  if vals = [] then none else some (vals.sum / vals.length)

abbrev GKey := String × String × String × ℤ

def gkeyOf (sr : SilverRow) : GKey :=
  (sr.row.sim_run_id, sr.row.farm_id, sr.row.turbine_id, hourOfMs sr.row.event_time)

/-- The aggregations of `run_hourly_energy` for one group key. -/
def hourlyAggFor (dt_seconds : ℚ) (rows : List SilverRow) (k : GKey) :
    HourlyEnergyRow :=
  let grp := rows.filter (fun sr => decide (gkeyOf sr = k))
  let dt_hours := dt_seconds / 3600
  { sim_run_id := k.1
    farm_id := k.2.1
    turbine_id := k.2.2.1
    hour := k.2.2.2
    wind_speed_mps_avg := optMean (grp.filterMap (·.row.wind_speed_mps))
    power_kw_avg := optMean (grp.filterMap (·.row.power_kw))
    energy_kwh := ((grp.filterMap (·.row.power_kw)).map (· * dt_hours)).sum
    downtime_minutes :=
      ((grp.filter (fun sr => !decide (sr.row.status = "RUNNING"))).length : ℚ) *
        (dt_seconds / 60)
    bad_rows := (grp.filter (·.has_range_violation)).length
    rows := grp.length }

/-- The `groupby(...).agg(...)` of `run_hourly_energy`: one output row per
distinct group key (the order pandas emits them in — sorted keys — is
irrelevant to every property here and is abstracted). -/
def goldHourlyAgg (dt_seconds : ℚ) (rows : List SilverRow) : List HourlyEnergyRow :=
  ((rows.map gkeyOf).dedup).map (hourlyAggFor dt_seconds rows)

def hourlyPkey (a : HourlyEnergyRow) : PKey := (a.sim_run_id, a.farm_id, a.hour)

/-- Output row of `run_farm_kpis`, grouped by `(sim_run_id, farm_id, hour)`. -/
structure FarmKpiRow where
  sim_run_id : String
  farm_id : String
  hour : ℤ
  farm_power_kw_avg : Option ℚ
  farm_energy_kwh : ℚ
  running_rows : ℕ
  total_rows : ℕ
  bad_rows : ℕ
  avg_free_wind : Option ℚ
  avg_effective_wind : Option ℚ
  availability : ℚ
  avg_wake_loss_mps : Option ℚ
  bad_row_rate : ℚ
  n_turbines_est : ℤ
  capacity_factor : ℚ
deriving DecidableEq

/-- Numpy round-half-to-even, used by `.round()` on the turbine-count
estimate. -/
def roundHalfEven (q : ℚ) : ℤ :=
  let f := ⌊q⌋
  let r := q - f
  if r < 1/2 then f
  else if 1/2 < r then f + 1
  else if Even f then f else f + 1

def optSub (a b : Option ℚ) : Option ℚ :=
  match a, b with
  | some x, some y => some (x - y)
  | _, _ => none

/-- The aggregations and derived KPI columns of `run_farm_kpis` for one
group key.  `ℚ` division by zero is 0 where pandas would produce
inf/NaN (`availability` with an empty group never arises from
`goldKpiAgg`; `capacity_factor` with a zero turbine estimate is the
degenerate case the spec leaves open). -/
def kpiAggFor (dt_seconds rated_power_kw : ℚ) (rows : List SilverRow)
    (k : String × String × ℤ) : FarmKpiRow :=
  let grp := rows.filter (fun sr =>
    decide ((sr.row.sim_run_id, sr.row.farm_id, hourOfMs sr.row.event_time) = k))
  let dt_hours := dt_seconds / 3600
  let energy := ((grp.filterMap (·.row.power_kw)).map (· * dt_hours)).sum
  let running := (grp.filter (fun sr => decide (sr.row.status = "RUNNING"))).length
  let total := grp.length
  let bad := (grp.filter (·.has_range_violation)).length
  let rows_per_turbine_per_hour : ℤ := ⌊(3600 : ℚ) / dt_seconds⌋
  let n_est := roundHalfEven ((total : ℚ) / (rows_per_turbine_per_hour : ℚ))
  { sim_run_id := k.1
    farm_id := k.2.1
    hour := k.2.2
    farm_power_kw_avg := optMean (grp.filterMap (·.row.power_kw))
    farm_energy_kwh := energy
    running_rows := running
    total_rows := total
    bad_rows := bad
    avg_free_wind := optMean (grp.filterMap (·.row.wind_speed_free_mps))
    avg_effective_wind := optMean (grp.filterMap (·.row.wind_speed_mps))
    availability := (running : ℚ) / (total : ℚ)
    avg_wake_loss_mps := optSub (optMean (grp.filterMap (·.row.wind_speed_free_mps)))
      (optMean (grp.filterMap (·.row.wind_speed_mps)))
    bad_row_rate := (bad : ℚ) / (total : ℚ)
    n_turbines_est := n_est
    capacity_factor := energy / ((n_est : ℚ) * rated_power_kw * 1) }

def goldKpiAgg (dt_seconds rated_power_kw : ℚ) (rows : List SilverRow) :
    List FarmKpiRow :=
  ((rows.map (fun sr => (sr.row.sim_run_id, sr.row.farm_id, hourOfMs sr.row.event_time))).dedup).map
    (kpiAggFor dt_seconds rated_power_kw rows)

def kpiPkey (a : FarmKpiRow) : PKey := (a.sim_run_id, a.farm_id, a.hour)

/-- The persistent state the gold jobs touch: the silver dataset they
read, the two output datasets, and the two processed-set namespaces
(`gold_processed_hours`, `gold_farm_kpis_processed_hours`). -/
structure GoldState where
  silver : List SilverRow
  hourly : List HourlyEnergyRow
  kpis : List FarmKpiRow
  processedHourly : Finset PKey
  processedKpis : Finset PKey

/-- Translation of `GoldJob.run_hourly_energy`.  As in `silverRun`,
`writeOk = false` models the output persist raising, which happens
strictly before the processed-set update. -/
def goldRunHourlyEnergy (writeOk : Bool) (dt_seconds : ℚ) (g : GoldState) :
    StageResult × GoldState :=
  if g.silver = [] then (.ok "data_lake/gold/hourly_energy", g)
  else
    let agg := goldHourlyAgg dt_seconds g.silver
    let aggNew := agg.filter (fun a => !decide (hourlyPkey a ∈ g.processedHourly))
    if aggNew = [] then (.ok "data_lake/gold/hourly_energy", g)
    else if writeOk then
      (.ok "data_lake/gold/hourly_energy",
        { g with
          hourly := g.hourly ++ aggNew
          processedHourly := g.processedHourly ∪ (aggNew.map hourlyPkey).toFinset })
    else (.error "write to gold hourly_energy failed", g)

/-- Translation of `GoldJob.run_farm_kpis` (same incremental skeleton,
separate state namespace). -/
def goldRunFarmKpis (writeOk : Bool) (dt_seconds rated_power_kw : ℚ)
    (g : GoldState) : StageResult × GoldState :=
  if g.silver = [] then (.ok "data_lake/gold/farm_kpis", g)
  else
    let agg := goldKpiAgg dt_seconds rated_power_kw g.silver
    let aggNew := agg.filter (fun a => !decide (kpiPkey a ∈ g.processedKpis))
    if aggNew = [] then (.ok "data_lake/gold/farm_kpis", g)
    else if writeOk then
      (.ok "data_lake/gold/farm_kpis",
        { g with
          kpis := g.kpis ++ aggNew
          processedKpis := g.processedKpis ∪ (aggNew.map kpiPkey).toFinset })
    else (.error "write to gold farm_kpis failed", g)

/-! ### Raw ingest — `io/bronze_writer.py` -/

/-- The shape of an incoming dataframe that `BronzeWriter.write`
validates: its column set and its number of rows. -/
structure RawBatch where
  columns : List String
  nrows : ℕ
deriving DecidableEq

/-- The required identity/time columns checked by `BronzeWriter.write`. -/
def requiredBronzeColumns : List String :=
  ["event_time", "farm_id", "sim_run_id", "ingest_time"]

/-- The full structural contract (`telemetry_arrow_schema` column names). -/
def telemetryColumns : List String :=
  ["event_time", "farm_id", "turbine_id", "wind_speed_free_mps", "wind_speed_mps",
   "wind_dir_deg", "power_kw", "rotor_speed_rpm", "yaw_deg", "status",
   "sim_run_id", "ingest_time", "source"]

/-- Translation of `BronzeWriter.write`: empty-batch check, then
required-column check, then (only then) the persist, which appends a new
uniquely-named file to the bronze dataset.  A raised input error leaves
the lake untouched. -/
def bronzeWrite (df : RawBatch) (lake : List RawBatch) :
    StageResult × List RawBatch :=
  if df.nrows = 0 then (.error "BronzeWriter received empty dataframe", lake)
  else
    let missing := requiredBronzeColumns.filter (fun c => !decide (c ∈ df.columns))
    if missing ≠ [] then (.error "Missing required columns", lake)
    else (.ok "data_lake/bronze", lake ++ [df])

/-! ### Concrete fixtures used by witnesses and counterexamples -/

/-- A plausible curated-contract row (all values in range). -/
def rowA : BronzeRow :=
  { event_time := 0
    farm_id := "F001"
    turbine_id := "T001"
    wind_speed_free_mps := some 8
    wind_speed_mps := some 8
    wind_dir_deg := some 220
    power_kw := some 500
    rotor_speed_rpm := some 10
    yaw_deg := some 220
    status := "RUNNING"
    sim_run_id := "SIM-001"
    ingest_time := 0
    source := "simulator" }

/-- Same dedup key as `rowA` but a different simulation run id: a
cross-run duplicate. -/
def rowB : BronzeRow := { rowA with sim_run_id := "SIM-002", power_kw := some 600 }

/-- Same dedup key and same run as `rowA`, differing in another field. -/
def rowC : BronzeRow := { rowA with power_kw := some 999 }

/-- A row with an impossible negative wind speed. -/
def rowD : BronzeRow := { rowA with wind_speed_mps := some (-5) }

/-- Bronze lake holding a cross-run duplicate pair. -/
def cexState : SilverState := { bronze := [rowA, rowB], silver := [], processed := ∅ }

/-- A one-row bronze lake. -/
def witState : SilverState := { bronze := [rowA, rowC], silver := [], processed := ∅ }

/-!  ## Theorems  -/

/-! ### C4 — the power curve is the claimed piecewise function -/

/-- C4: `PowerCurve.power_kw` is exactly the claimed piecewise function:
`v ≥ cut_out ↦ (0, CUT_OUT)`; `v < cut_in ↦ (0, STOPPED)`;
`cut_in ≤ v < rated ↦ (P·((v−cut_in)/(rated−cut_in))³, RUNNING)`;
`rated ≤ v < cut_out ↦ (P, RUNNING)`; and at the boundaries,
`v = cut_in` gives `(0, RUNNING)` and `v = cut_out` gives `(0, CUT_OUT)`
(for any configuration with `cut_in < rated ≤ cut_out`, as in the
defaults 3 < 12 ≤ 25). -/
theorem power_kw_piecewise {α : Type} [LinearOrderedField α] (pc : PowerCurve α)
    (P v : α) (hir : pc.cut_in_mps < pc.rated_mps)
    (hro : pc.rated_mps ≤ pc.cut_out_mps) :
    (pc.cut_out_mps ≤ v → pc.power_kw v P = (0, "CUT_OUT"))
    ∧ (v < pc.cut_in_mps → pc.power_kw v P = (0, "STOPPED"))
    ∧ (pc.cut_in_mps ≤ v → v < pc.rated_mps →
        pc.power_kw v P =
          (P * ((v - pc.cut_in_mps) / (pc.rated_mps - pc.cut_in_mps)) ^ 3, "RUNNING"))
    ∧ (pc.rated_mps ≤ v → v < pc.cut_out_mps → pc.power_kw v P = (P, "RUNNING"))
    ∧ pc.power_kw pc.cut_in_mps P = (0, "RUNNING")
    ∧ pc.power_kw pc.cut_out_mps P = (0, "CUT_OUT") := by
  refine ⟨?_, ?_, ?_, ?_, ?_, ?_⟩
  · intro h
    simp [PowerCurve.power_kw, h]
  · intro h
    have h1 : ¬ v ≥ pc.cut_out_mps := not_le.2 (h.trans_le (hir.le.trans hro))
    simp [PowerCurve.power_kw, h, h1]
  · intro h1 h2
    have hno : ¬ v ≥ pc.cut_out_mps := not_le.2 (h2.trans_le hro)
    have hni : ¬ v < pc.cut_in_mps := not_lt.2 h1
    simp [PowerCurve.power_kw, hno, hni, h2]
  · intro h1 h2
    have hno : ¬ v ≥ pc.cut_out_mps := not_le.2 h2
    have hni : ¬ v < pc.cut_in_mps := not_lt.2 (hir.le.trans h1)
    have hnr : ¬ v < pc.rated_mps := not_lt.2 h1
    simp [PowerCurve.power_kw, hno, hni, hnr]
  · have hno : ¬ pc.cut_in_mps ≥ pc.cut_out_mps := not_le.2 (hir.trans_le hro)
    have hni : ¬ pc.cut_in_mps < pc.cut_in_mps := lt_irrefl _
    simp [PowerCurve.power_kw, hno, hni, hir]
  · simp [PowerCurve.power_kw]

/-- Witness for C4 at the default curve (3, 12, 25) over `ℚ`: rated power
2000, evaluated inside the cubic-ramp band and at the cut-in boundary. -/
theorem power_kw_piecewise_witness :
    defaultPowerCurve.power_kw 5 2000 =
      (2000 * ((5 - (3 : ℚ)) / (12 - 3)) ^ 3, "RUNNING")
    ∧ defaultPowerCurve.power_kw 3 2000 = ((0 : ℚ), "RUNNING") := by
  have h := power_kw_piecewise (α := ℚ) defaultPowerCurve 2000 5
    (by decide) (by decide)
  exact ⟨h.2.2.1 (by decide) (by decide), h.2.2.2.2.1⟩

/-! ### C8 — wind-field determinism -/

/-- C8: the wind field is deterministic under a fixed seed and fixed call
sequence.  For any deterministic seed-indexed family of normal-draw
streams (which is what `np.random.default_rng` is), two `WindField`
instances constructed with identical parameters and identical seed return
identical `(speed, direction)` pairs at every position of any identical
sequence of `get_wind_at_turbine` calls. -/
theorem wind_field_deterministic (normalStream : ℕ → ℕ → ℝ)
    (p₁ p₂ : WindFieldParams) (seed₁ seed₂ : ℕ)
    (calls₁ calls₂ : List (ℝ × ℝ × ℝ))
    (hp : p₁ = p₂) (hs : seed₁ = seed₂) (hc : calls₁ = calls₂) :
    (mkWindFieldSeeded normalStream p₁ seed₁).runCalls calls₁ =
      (mkWindFieldSeeded normalStream p₂ seed₂).runCalls calls₂ := by
  subst hp
  subst hs
  subst hc
  rfl

/-- Witness for C8: two separately constructed default wind fields with
the default seed 42, on a two-call sequence. -/
theorem wind_field_deterministic_witness :
    (mkWindFieldSeeded (fun _ _ => 0) {} 42).runCalls [(0, 0, 0), (60, 600, 0)] =
      (mkWindFieldSeeded (fun _ _ => 0) {} 42).runCalls [(0, 0, 0), (60, 600, 0)] :=
  wind_field_deterministic (fun _ _ => 0) {} {} 42 42 _ _ rfl rfl rfl

/-! ### C9 — raw-ingest input contract -/

/-- C9: `BronzeWriter.write` fails with an input error, before anything is
persisted, when the batch is empty or a required identity/time column is
missing (the lake is returned unchanged); and a non-empty batch carrying
all structural contract columns passes validation and is persisted with
no input error. -/
theorem bronze_write_input_contract (df : RawBatch) (lake : List RawBatch) :
    (df.nrows = 0 →
      bronzeWrite df lake = (.error "BronzeWriter received empty dataframe", lake))
    ∧ (df.nrows ≠ 0 → (∃ c ∈ requiredBronzeColumns, c ∉ df.columns) →
        ∃ msg, bronzeWrite df lake = (.error msg, lake))
    ∧ (df.nrows ≠ 0 → (∀ c ∈ telemetryColumns, c ∈ df.columns) →
        bronzeWrite df lake = (.ok "data_lake/bronze", lake ++ [df])) := by
  refine ⟨?_, ?_, ?_⟩
  · intro h
    simp [bronzeWrite, h]
  · intro h ⟨c, hc, hnc⟩
    have hmem : c ∈ requiredBronzeColumns.filter (fun c => !decide (c ∈ df.columns)) :=
      List.mem_filter.2 ⟨hc, by simp [hnc]⟩
    have hne : requiredBronzeColumns.filter (fun c => !decide (c ∈ df.columns)) ≠ [] :=
      List.ne_nil_of_mem hmem
    exact ⟨"Missing required columns", by simp [bronzeWrite, h, hne]⟩
  · intro h hall
    have hsub : ∀ c ∈ requiredBronzeColumns, c ∈ telemetryColumns := by decide
    have hnil : requiredBronzeColumns.filter (fun c => !decide (c ∈ df.columns)) = [] := by
      simp only [List.filter_eq_nil_iff]
      intro c hc
      simp [hall c (hsub c hc)]
    simp [bronzeWrite, h, hnil]

/-- Witness for C9: a one-row batch with the full telemetry column set is
appended to an empty lake with an `ok` outcome. -/
theorem bronze_write_input_contract_witness :
    bronzeWrite ⟨telemetryColumns, 1⟩ [] =
      (.ok "data_lake/bronze", [(⟨telemetryColumns, 1⟩ : RawBatch)]) :=
  (bronze_write_input_contract ⟨telemetryColumns, 1⟩ []).2.2 (by decide) (by decide)

/-! ### C10 — anomaly injection touches only the targeted field -/

/-- C10: with injection enabled, each anomaly band changes exactly one
field of the row relative to the uninjected row built from the same
uncorrupted effective wind speed — the NaN band and the −5.0 band change
only `wind_speed_mps` (power, status, rotor speed and yaw keep the values
derived from the clean speed), the spike band changes only `power_kw`,
outside all bands the row is untouched — and the three bands, all tested
against the same single uniform draw, are pairwise disjoint. -/
theorem telemetry_injection_frame (pc : PowerCurve ℝ) (farm sim tag : String)
    (turb : Turbine) (t it : ℚ) (free dir ws : ℝ) (r : ℝ) :
    (r < 0.002 →
      genRow pc farm sim tag turb t it free dir ws (some r) =
        { genRow pc farm sim tag turb t it free dir ws none with wind_speed_mps := none })
    ∧ (0.002 ≤ r → r < 0.004 →
        genRow pc farm sim tag turb t it free dir ws (some r) =
          { genRow pc farm sim tag turb t it free dir ws none with
              wind_speed_mps := some (-5) })
    ∧ (0.004 ≤ r → r < 0.0055 →
        genRow pc farm sim tag turb t it free dir ws (some r) =
          { genRow pc farm sim tag turb t it free dir ws none with power_kw := 99999 })
    ∧ (0.0055 ≤ r →
        genRow pc farm sim tag turb t it free dir ws (some r) =
          genRow pc farm sim tag turb t it free dir ws none)
    ∧ ¬(r < 0.002 ∧ 0.002 ≤ r ∧ r < 0.004)
    ∧ ¬(r < 0.002 ∧ 0.004 ≤ r ∧ r < 0.0055)
    ∧ ¬((0.002 ≤ r ∧ r < 0.004) ∧ 0.004 ≤ r ∧ r < 0.0055) := by
  refine ⟨?_, ?_, ?_, ?_, ?_, ?_, ?_⟩
  · intro h
    have h2 : ¬(0.002 ≤ r ∧ r < 0.004) := fun hh => absurd h (not_lt.2 hh.1)
    have h3 : ¬(0.004 ≤ r ∧ r < 0.0055) := fun hh => absurd h (not_lt.2 (by linarith [hh.1]))
    simp [genRow, h, h2, h3]
  · intro h1 h2
    have hn1 : ¬ r < 0.002 := not_lt.2 h1
    have h3 : ¬(0.004 ≤ r ∧ r < 0.0055) := fun hh => absurd h2 (not_lt.2 hh.1)
    simp [genRow, hn1, h2, h1, h3]
  · intro h1 h2
    have hn1 : ¬ r < 0.002 := not_lt.2 (by linarith)
    have hn2 : ¬(0.002 ≤ r ∧ r < 0.004) := fun hh => absurd h1 (not_le.2 hh.2)
    simp [genRow, hn1, hn2, h1, h2]
  · intro h
    have hn1 : ¬ r < 0.002 := not_lt.2 (by linarith)
    have hn2 : ¬(0.002 ≤ r ∧ r < 0.004) := fun hh => by linarith [hh.2]
    have hn3 : ¬(0.004 ≤ r ∧ r < 0.0055) := fun hh => absurd h (not_le.2 hh.2)
    simp [genRow, hn1, hn2, hn3]
  · rintro ⟨h1, h2, -⟩
    exact absurd h1 (not_lt.2 h2)
  · rintro ⟨h1, h2, -⟩
    exact absurd h1 (not_lt.2 (by linarith))
  · rintro ⟨⟨-, h1⟩, h2, -⟩
    exact absurd h2 (not_le.2 h1)

/-- Witness for C10: a draw in the forced −5.0 band modifies only the
recorded wind speed of the concrete row. -/
theorem telemetry_injection_frame_witness :
    genRow ⟨3, 12, 25⟩ "F001" "SIM-001" "simulator" ⟨"T001", 0, 0, 2000⟩ 0 0 8 220 8
        (some 0.003) =
      { genRow ⟨3, 12, 25⟩ "F001" "SIM-001" "simulator" ⟨"T001", 0, 0, 2000⟩ 0 0 8 220 8
          none with wind_speed_mps := some (-5) } :=
  (telemetry_injection_frame ⟨3, 12, 25⟩ "F001" "SIM-001" "simulator"
      ⟨"T001", 0, 0, 2000⟩ 0 0 8 220 8 0.003).2.1 (by norm_num) (by norm_num)

/-! ### C5, C6 — the wake model -/

/-- Generic shape of the wake loop: a fold that multiplies the accumulator
by a per-element factor is the accumulator times the product of the
factors. -/
theorem foldl_step_prod {β : Type} (f : β → ℝ) (step : ℝ → β → ℝ)
    (hstep : ∀ a x, step a x = a * f x) :
    ∀ (l : List β) (a : ℝ), l.foldl step a = a * (l.map f).prod := by
  intro l
  induction l with
  | nil => intro a; simp
  | cons x xs ih =>
    intro a
    rw [List.foldl_cons, hstep, ih, List.map_cons, List.prod_cons, mul_assoc]

/-- The loop body equals multiplication by the per-source factor. -/
theorem wakeStep_eq_mul_srcFactor (m : WakeModel) (u : ℝ × ℝ) (target : Turbine)
    (a : ℝ) (src : Turbine) :
    wakeStep m u target a src = a * m.srcFactor u target src := by
  unfold wakeStep WakeModel.srcFactor
  by_cases h1 : src.turbine_id = target.turbine_id
  · simp [h1]
  · by_cases h2 : (target.x_m - src.x_m) * u.1 + (target.y_m - src.y_m) * u.2 ≤ 0
    · simp [h1, h2]
    · simp [h1, h2]

/-- The wake loop of `effective_speed` computes the product of the
per-source retained factors. -/
theorem effective_speed_eq_prod (m : WakeModel) (v dir : ℝ) (target : Turbine)
    (l : List Turbine) :
    m.effective_speed v dir target l =
      max 0 (v *
        (l.map (m.srcFactor (unit_vector_from_direction_deg dir) target)).prod) := by
  have h0 : m.effective_speed v dir target l =
      max 0 (v * List.foldl
        (wakeStep m (unit_vector_from_direction_deg dir) target) 1 l) := rfl
  rw [h0, foldl_step_prod
    (m.srcFactor (unit_vector_from_direction_deg dir) target)
    (wakeStep m (unit_vector_from_direction_deg dir) target)
    (wakeStep_eq_mul_srcFactor m (unit_vector_from_direction_deg dir) target) l 1,
    one_mul]

/-- Every per-source factor other than those of contributing sources is 1,
so the product over all sources equals the product over the contributing
(strictly upwind, non-target) sources of `1 − loss`. -/
theorem prod_srcFactor_filter (m : WakeModel) (u : ℝ × ℝ) (target : Turbine) :
    ∀ l : List Turbine,
      (l.map (m.srcFactor u target)).prod =
        ((l.filter (fun src =>
            decide (src.turbine_id ≠ target.turbine_id) &&
              decide (0 < (target.x_m - src.x_m) * u.1 +
                (target.y_m - src.y_m) * u.2))).map (fun src =>
          1 - m.wake_strength *
              Real.exp (-(|(-(target.x_m - src.x_m)) * u.2 +
                  (target.y_m - src.y_m) * u.1| ^ 2) /
                (2 * m.crosswind_sigma_m ^ 2)) *
              Real.exp (-((target.x_m - src.x_m) * u.1 +
                  (target.y_m - src.y_m) * u.2) / m.decay_length_m))).prod := by
  intro l
  induction l with
  | nil => simp
  | cons x xs ih =>
    rw [List.map_cons, List.prod_cons, List.filter_cons]
    by_cases h1 : x.turbine_id = target.turbine_id
    · have hf : m.srcFactor u target x = 1 := by simp [WakeModel.srcFactor, h1]
      simp [h1, hf, ih]
    · by_cases h2 : (target.x_m - x.x_m) * u.1 + (target.y_m - x.y_m) * u.2 ≤ 0
      · have hf : m.srcFactor u target x = 1 := by
          simp [WakeModel.srcFactor, h1, h2]
        have hn2 : ¬ 0 < (target.x_m - x.x_m) * u.1 + (target.y_m - x.y_m) * u.2 :=
          not_lt.2 h2
        simp [h1, hf, ih, hn2]
      · have hf : m.srcFactor u target x =
            1 - m.wake_strength *
                Real.exp (-(|(-(target.x_m - x.x_m)) * u.2 +
                    (target.y_m - x.y_m) * u.1| ^ 2) / (2 * m.crosswind_sigma_m ^ 2)) *
                Real.exp (-((target.x_m - x.x_m) * u.1 +
                    (target.y_m - x.y_m) * u.2) / m.decay_length_m) := by
          simp [WakeModel.srcFactor, h1, h2]
        have hp2 : 0 < (target.x_m - x.x_m) * u.1 + (target.y_m - x.y_m) * u.2 :=
          not_le.1 h2
        simp [h1, hp2, hf, ih]

/-- C5: `WakeModel.effective_speed` equals the reference wake formula of
the spec — skipped sources (the target itself and sources whose downwind
projection is not strictly positive) contribute nothing, each
contributing source contributes the Gaussian-crosswind × exponential-decay
loss, the wakes combine multiplicatively on the retained fraction, and
the result is clamped at zero. -/
theorem effective_speed_eq_spec (m : WakeModel) (v dir : ℝ) (target : Turbine)
    (l : List Turbine) :
    m.effective_speed v dir target l = wakeSpecEffective m v dir target l := by
  rw [effective_speed_eq_prod, prod_srcFactor_filter]
  rfl

/-- Nonnegative factors have a nonnegative product. -/
theorem list_prod_nonneg : ∀ {l : List ℝ}, (∀ x ∈ l, 0 ≤ x) → 0 ≤ l.prod := by
  intro l
  induction l with
  | nil => intro _; simp
  | cons x xs ih =>
    intro h
    rw [List.prod_cons]
    exact mul_nonneg (h x (List.mem_cons_self x xs))
      (ih fun y hy => h y (List.mem_cons_of_mem x hy))

/-- Dropping factors that all lie in `[0, 1]` can only increase the
product, and the product stays nonnegative. -/
theorem list_prod_sublist_le : ∀ {l₁ l₂ : List ℝ}, l₁.Sublist l₂ →
    (∀ x ∈ l₂, 0 ≤ x ∧ x ≤ 1) → l₂.prod ≤ l₁.prod ∧ 0 ≤ l₂.prod := by
  intro l₁ l₂ h
  induction h with
  | slnil => intro _; simp
  | @cons l₁ l₂ a h ih =>
    intro hb
    have ha := hb a (List.mem_cons_self a l₂)
    have ih' := ih fun x hx => hb x (List.mem_cons_of_mem a hx)
    rw [List.prod_cons]
    refine ⟨le_trans (mul_le_of_le_one_left ih'.2 ha.2) ih'.1,
      mul_nonneg ha.1 ih'.2⟩
  | @cons₂ l₁ l₂ a h ih =>
    intro hb
    have ha := hb a (List.mem_cons_self a l₂)
    have ih' := ih fun x hx => hb x (List.mem_cons_of_mem a hx)
    rw [List.prod_cons, List.prod_cons]
    exact ⟨mul_le_mul_of_nonneg_left ih'.1 ha.1, mul_nonneg ha.1 ih'.2⟩

/-- With physically meaningful parameters (`0 ≤ wake_strength ≤ 1`,
`0 ≤ decay_length`), every per-source retained factor lies in `[0, 1]`. -/
theorem srcFactor_bounds (m : WakeModel) (hs0 : 0 ≤ m.wake_strength)
    (hs1 : m.wake_strength ≤ 1) (hd : 0 ≤ m.decay_length_m)
    (u : ℝ × ℝ) (target src : Turbine) :
    0 ≤ m.srcFactor u target src ∧ m.srcFactor u target src ≤ 1 := by
  unfold WakeModel.srcFactor
  by_cases h1 : src.turbine_id = target.turbine_id
  · simp [h1]
  · simp only [h1, if_false]
    by_cases h2 : (target.x_m - src.x_m) * u.1 + (target.y_m - src.y_m) * u.2 ≤ 0
    · simp [h2]
    · simp only [h2, if_false]
      have hdw : 0 < (target.x_m - src.x_m) * u.1 + (target.y_m - src.y_m) * u.2 :=
        not_le.1 h2
      set c := |(-(target.x_m - src.x_m)) * u.2 + (target.y_m - src.y_m) * u.1| with hc
      have hcross : Real.exp (-(c ^ 2) / (2 * m.crosswind_sigma_m ^ 2)) ≤ 1 := by
        rw [Real.exp_le_one_iff]
        apply div_nonpos_of_nonpos_of_nonneg
        · exact neg_nonpos.2 (sq_nonneg c)
        · positivity
      have hdist : Real.exp (-((target.x_m - src.x_m) * u.1 +
          (target.y_m - src.y_m) * u.2) / m.decay_length_m) ≤ 1 := by
        rw [Real.exp_le_one_iff]
        apply div_nonpos_of_nonpos_of_nonneg
        · exact neg_nonpos.2 hdw.le
        · exact hd
      have hcp := Real.exp_pos (-(c ^ 2) / (2 * m.crosswind_sigma_m ^ 2))
      have hdp := Real.exp_pos (-((target.x_m - src.x_m) * u.1 +
          (target.y_m - src.y_m) * u.2) / m.decay_length_m)
      have h1' : m.wake_strength *
          Real.exp (-(c ^ 2) / (2 * m.crosswind_sigma_m ^ 2)) ≤ 1 :=
        mul_le_one₀ hs1 hcp.le hcross
      have hloss : m.wake_strength *
          Real.exp (-(c ^ 2) / (2 * m.crosswind_sigma_m ^ 2)) *
          Real.exp (-((target.x_m - src.x_m) * u.1 +
            (target.y_m - src.y_m) * u.2) / m.decay_length_m) ≤ 1 :=
        mul_le_one₀ h1' hdp.le hdist
      have hloss0 : 0 ≤ m.wake_strength *
          Real.exp (-(c ^ 2) / (2 * m.crosswind_sigma_m ^ 2)) *
          Real.exp (-((target.x_m - src.x_m) * u.1 +
            (target.y_m - src.y_m) * u.2) / m.decay_length_m) :=
        mul_nonneg (mul_nonneg hs0 hcp.le) hdp.le
      constructor
      · linarith
      · linarith

/-- C6: adding upstream turbines never increases the effective speed —
for any collection `S'` containing (as a sub-multiset) the collection
`S`, and any physically meaningful parameters, the effective speed over
`S'` is at most the effective speed over `S`. -/
theorem effective_speed_subperm_mono (m : WakeModel) (hs0 : 0 ≤ m.wake_strength)
    (hs1 : m.wake_strength ≤ 1) (hd : 0 ≤ m.decay_length_m)
    (v dir : ℝ) (target : Turbine) {S S' : List Turbine}
    (hsub : S.Subperm S') :
    m.effective_speed v dir target S' ≤ m.effective_speed v dir target S := by
  rw [effective_speed_eq_prod, effective_speed_eq_prod]
  set f := m.srcFactor (unit_vector_from_direction_deg dir) target with hf
  obtain ⟨l, hperm, hsl⟩ := hsub
  have hmap : (l.map f).Sublist (S'.map f) := hsl.map f
  have hbounds : ∀ x ∈ S'.map f, 0 ≤ x ∧ x ≤ 1 := by
    intro x hx
    obtain ⟨src, -, rfl⟩ := List.mem_map.1 hx
    exact srcFactor_bounds m hs0 hs1 hd _ target src
  have hkey := list_prod_sublist_le hmap hbounds
  have hSeq : (l.map f).prod = (S.map f).prod := ((hperm.map f).prod_eq)
  have hSnn : 0 ≤ (S.map f).prod := by
    rw [← hSeq]
    exact list_prod_nonneg fun x hx => (hbounds x (hmap.subset hx)).1
  rcases le_or_lt 0 v with hv | hv
  · exact max_le_max le_rfl
      (mul_le_mul_of_nonneg_left (hSeq ▸ hkey.1) hv)
  · have h1 : v * (S'.map f).prod ≤ 0 :=
      mul_nonpos_iff.2 (Or.inr ⟨hv.le, hkey.2⟩)
    have h2 : v * (S.map f).prod ≤ 0 :=
      mul_nonpos_iff.2 (Or.inr ⟨hv.le, hSnn⟩)
    rw [max_eq_left h1, max_eq_left h2]

/-- Witness for C6: the default wake model, default parameters, a target
at the origin, comparing the empty source collection against one
upstream source. -/
theorem effective_speed_subperm_mono_witness :
    ({} : WakeModel).effective_speed 8 220 ⟨"T001", 0, 0, 2000⟩
        [⟨"T002", 600, 600, 2000⟩] ≤
      ({} : WakeModel).effective_speed 8 220 ⟨"T001", 0, 0, 2000⟩ [] :=
  effective_speed_subperm_mono {} (by norm_num) (by norm_num) (by norm_num)
    8 220 ⟨"T001", 0, 0, 2000⟩ List.nil_subperm

/-! ### C7 — range validation flags -/

/-- The fold of the five `flag` calls, from an arbitrary accumulator:
the flag becomes true when any check is bad, and the names of the bad
checks are appended, comma-separated, in check order. -/
theorem foldl_flagStep : ∀ (cs : List (Option ℚ × (ℚ × ℚ) × String)) (b : Bool)
    (s : String),
    cs.foldl (fun acc ch => flagStep acc ch.1 ch.2.1.1 ch.2.1.2 ch.2.2) (b, s) =
      (b || cs.any (fun ch => fieldBad ch.1 ch.2.1.1 ch.2.1.2),
        sAppendNames s ((cs.filter
          (fun ch => fieldBad ch.1 ch.2.1.1 ch.2.1.2)).map (·.2.2))) := by
  intro cs
  induction cs with
  | nil => intro b s; simp [sAppendNames]
  | cons ch cs ih =>
    intro b s
    rw [List.foldl_cons]
    cases hfb : fieldBad ch.1 ch.2.1.1 ch.2.1.2 with
    | true =>
      have hstep : flagStep (b, s) ch.1 ch.2.1.1 ch.2.1.2 ch.2.2 =
          (true, (if s = "" then "" else s ++ ",") ++ ch.2.2) := by
        simp [flagStep, hfb]
      rw [hstep, ih]
      simp [hfb, sAppendNames]
    | false =>
      have hstep : flagStep (b, s) ch.1 ch.2.1.1 ch.2.1.2 ch.2.2 = (b, s) := by
        simp [flagStep, hfb]
      rw [hstep, ih]
      simp [hfb]

/-- Closed form of `addRangeFlags`. -/
theorem addRangeFlags_eq (c : TelemetryConstraints) (r : BronzeRow) :
    addRangeFlags c r =
      ((rangeChecks c r).any (fun ch => fieldBad ch.1 ch.2.1.1 ch.2.1.2),
        sAppendNames "" (flaggedNames c r)) := by
  unfold addRangeFlags flaggedNames flaggedChecks
  rw [foldl_flagStep]
  simp

/-- Appending names to a nonempty accumulator comma-joins them onto it. -/
theorem sAppendNames_ne_empty : ∀ (ns : List String) (s : String), s ≠ "" →
    sAppendNames s ns = if ns = [] then s else s ++ "," ++ commaJoin ns := by
  intro ns
  induction ns with
  | nil => intro s _; simp [sAppendNames]
  | cons n ns ih =>
    intro s hs
    have hstep : sAppendNames s (n :: ns) = sAppendNames (s ++ "," ++ n) ns := by
      simp [sAppendNames, hs]
    have hne : s ++ "," ++ n ≠ "" := by
      intro h
      have hlen := congrArg String.length h
      rw [String.length_append, String.length_append] at hlen
      have h1 : (("," : String)).length = 1 := rfl
      have h2 : (("" : String)).length = 0 := rfl
      omega
    rw [hstep, ih (s ++ "," ++ n) hne]
    cases ns with
    | nil => simp [commaJoin]
    | cons m ms =>
      simp only [if_neg (by simp : ¬(m :: ms = [])), if_neg (by simp : ¬(n :: m :: ms = []))]
      show s ++ "," ++ n ++ "," ++ commaJoin (m :: ms) =
        s ++ "," ++ (n ++ "," ++ commaJoin (m :: ms))
      simp [String.append_assoc]

/-- Appending nonempty names to the empty accumulator is the comma-join. -/
theorem sAppendNames_empty : ∀ ns : List String, (∀ n ∈ ns, n ≠ "") →
    sAppendNames "" ns = commaJoin ns := by
  intro ns h
  cases ns with
  | nil => rfl
  | cons n ns =>
    have h0 : sAppendNames "" (n :: ns) = sAppendNames n ns := by
      simp [sAppendNames]
    rw [h0]
    cases ns with
    | nil => rfl
    | cons m ms =>
      have hn : n ≠ "" := h n (by simp)
      rw [sAppendNames_ne_empty (m :: ms) n hn]
      simp [commaJoin]

/-- C7: a surviving record's field value is flagged iff it is missing
(NaN) or below the low bound or above the high bound of its configured
range; `has_range_violation` is true exactly when at least one of the
five checks is flagged; `range_violation_fields` is the comma-joined
concatenation of the flagged field names in check order; and a row with
`wind_speed_mps = −5.0` is flagged with `"wind_speed_mps"` among the
flagged names under the default constraints. -/
theorem range_flags_spec (c : TelemetryConstraints) (r : BronzeRow) :
    ((addRangeFlags c r).1 = true ↔
      ∃ ch ∈ rangeChecks c r, fieldBad ch.1 ch.2.1.1 ch.2.1.2 = true)
    ∧ (addRangeFlags c r).2 = commaJoin (flaggedNames c r)
    ∧ (∀ (v : Option ℚ) (lo hi : ℚ), fieldBad v lo hi = true ↔
        v = none ∨ ∃ q, v = some q ∧ (q < lo ∨ hi < q))
    ∧ (r.wind_speed_mps = some (-5) →
        (addRangeFlags defaultConstraints r).1 = true ∧
          "wind_speed_mps" ∈ flaggedNames defaultConstraints r) := by
  refine ⟨?_, ?_, ?_, ?_⟩
  · rw [addRangeFlags_eq]
    exact List.any_eq_true
  · rw [addRangeFlags_eq]
    apply sAppendNames_empty
    intro n hn
    obtain ⟨ch, hch, rfl⟩ := List.mem_map.1 hn
    have hmem : ch ∈ rangeChecks c r := List.mem_filter.1 hch |>.1
    have : ch.2.2 = "wind_speed_mps" ∨ ch.2.2 = "wind_dir_deg" ∨
        ch.2.2 = "rotor_speed_rpm" ∨ ch.2.2 = "yaw_deg" ∨ ch.2.2 = "power_kw" := by
      simp only [rangeChecks, List.mem_cons, List.not_mem_nil, or_false] at hmem
      rcases hmem with rfl | rfl | rfl | rfl | rfl <;> simp
    rcases this with h | h | h | h | h <;> rw [h] <;> decide
  · intro v lo hi
    cases v with
    | none => simp [fieldBad]
    | some q => simp [fieldBad]
  · intro h5
    have hbad : fieldBad r.wind_speed_mps
        defaultConstraints.wind_speed_range.1 defaultConstraints.wind_speed_range.2 =
        true := by
      rw [h5]
      decide
    have hchmem : (r.wind_speed_mps, defaultConstraints.wind_speed_range,
        "wind_speed_mps") ∈ rangeChecks defaultConstraints r := by
      simp [rangeChecks]
    constructor
    · rw [addRangeFlags_eq]
      simp only [Bool.or_eq_true, List.any_eq_true]
      exact ⟨_, hchmem, hbad⟩
    · exact List.mem_map.2 ⟨_, List.mem_filter.2 ⟨hchmem, hbad⟩, rfl⟩

/-- Witness for C7 on the concrete row with wind speed −5.0. -/
theorem range_flags_spec_witness :
    (addRangeFlags defaultConstraints rowD).1 = true ∧
      "wind_speed_mps" ∈ flaggedNames defaultConstraints rowD :=
  (range_flags_spec defaultConstraints rowD).2.2.2 rfl

/-! ### C3 — deduplication keeps exactly the earliest arrival per key -/

/-- Finding the first match is taking the head of the filtered list. -/
theorem find?_eq_head?_filter {α : Type} (p : α → Bool) :
    ∀ l : List α, l.find? p = (l.filter p).head? := by
  intro l
  induction l with
  | nil => rfl
  | cons x xs ih =>
    by_cases h : p x
    · rw [List.find?_cons_of_pos xs h, List.filter_cons_of_pos h, List.head?_cons]
    · rw [List.find?_cons_of_neg xs h, List.filter_cons_of_neg h, ih]

/-- After the first occurrence of a key is consumed (its key is in
`seen`), no further entry with that key survives. -/
theorem dropDupFirst_filter_of_mem (k : ℤ × String × String) :
    ∀ (es : List SortEntry) (seen : List (ℤ × String × String)), k ∈ seen →
      (dropDupFirst seen es).filter (fun e => decide (dedupKey e.2 = k)) = [] := by
  intro es
  induction es with
  | nil => intro seen _; rfl
  | cons e es ih =>
    intro seen hk
    simp only [dropDupFirst]
    by_cases h : dedupKey e.2 ∈ seen
    · rw [if_pos h]
      exact ih seen hk
    · rw [if_neg h]
      have hne : ¬ dedupKey e.2 = k := fun heq => h (heq ▸ hk)
      rw [List.filter_cons_of_neg (by simpa using hne)]
      exact ih (dedupKey e.2 :: seen) (List.mem_cons_of_mem _ hk)

/-- For an unseen key, the surviving entries with that key are exactly
the first entry with that key in the input (if any). -/
theorem dropDupFirst_filter_head (k : ℤ × String × String) :
    ∀ (es : List SortEntry) (seen : List (ℤ × String × String)), k ∉ seen →
      (dropDupFirst seen es).filter (fun e => decide (dedupKey e.2 = k)) =
        ((es.filter (fun e => decide (dedupKey e.2 = k))).head?).toList := by
  intro es
  induction es with
  | nil => intro seen _; rfl
  | cons e es ih =>
    intro seen hk
    by_cases hke : dedupKey e.2 = k
    · have hnotin : dedupKey e.2 ∉ seen := by rw [hke]; exact hk
      simp only [dropDupFirst, if_neg hnotin]
      rw [List.filter_cons_of_pos (by simpa using hke),
        List.filter_cons_of_pos (by simpa using hke),
        dropDupFirst_filter_of_mem k es (dedupKey e.2 :: seen)
          (by rw [← hke]; exact List.mem_cons_self _ _)]
      rfl
    · by_cases hs : dedupKey e.2 ∈ seen
      · simp only [dropDupFirst, if_pos hs]
        rw [ih seen hk, List.filter_cons_of_neg (by simpa using hke)]
      · simp only [dropDupFirst, if_neg hs]
        rw [List.filter_cons_of_neg (by simpa using hke),
          List.filter_cons_of_neg (by simpa using hke)]
        exact ih (dedupKey e.2 :: seen) (by
          simp only [List.mem_cons]
          rintro (h | h)
          · exact hke h.symm
          · exact hk h)

/-- The enumeration indices are strictly increasing. -/
theorem enumFrom_pairwise_fst_lt {α : Type} :
    ∀ (n : ℕ) (l : List α), (List.enumFrom n l).Pairwise (fun a b => a.1 < b.1) := by
  intro n l
  induction l generalizing n with
  | nil => simp
  | cons x xs ih =>
    rw [List.enumFrom_cons]
    refine List.pairwise_cons.2 ⟨?_, ih (n + 1)⟩
    intro b hb
    have := (List.mem_enumFrom hb).1
    omega

/-- Filtering the enumeration on the row and dropping the indices is
filtering the rows. -/
theorem enumFrom_filter_map_snd {α : Type} (p : α → Bool) (q : ℕ × α → Bool)
    (hq : ∀ e : ℕ × α, q e = p e.2) :
    ∀ (n : ℕ) (l : List α),
      ((List.enumFrom n l).filter q).map Prod.snd = l.filter p := by
  intro n l
  induction l generalizing n with
  | nil => rfl
  | cons x xs ih =>
    rw [List.enumFrom_cons, List.filter_cons, List.filter_cons, hq]
    by_cases h : p x
    · simp [h, ih]
    · simp [h, ih]

/-- Comparing two entries with the same dedup key under the sort order
compares their arrival indices. -/
theorem entryLe_idx_le {e e' : SortEntry} (hk : dedupKey e.2 = dedupKey e'.2)
    (h : entryLe e e') : e.1 ≤ e'.1 := by
  obtain ⟨ht, hf, hu⟩ : e.2.event_time = e'.2.event_time ∧
      e.2.farm_id = e'.2.farm_id ∧ e.2.turbine_id = e'.2.turbine_id := by
    simpa [dedupKey, Prod.ext_iff] using hk
  unfold entryLe entryRank at h
  rw [Prod.Lex.le_iff] at h
  rcases h with h | ⟨-, h⟩
  · rw [ht] at h
    exact absurd h (lt_irrefl _)
  · rw [Prod.Lex.le_iff] at h
    rcases h with h | ⟨-, h⟩
    · rw [hf] at h
      exact absurd h (lt_irrefl _)
    · rw [Prod.Lex.le_iff] at h
      rcases h with h | ⟨-, h⟩
      · rw [hu] at h
        exact absurd h (lt_irrefl _)
      · exact h

/-- The first sorted entry with a given key is the first enumerated entry
with that key: the stable sort cannot move a later arrival in front of
an earlier one with the same key. -/
theorem sorted_filter_head (l : List BronzeRow) (k : ℤ × String × String) :
    ((List.insertionSort entryLe l.enum).filter
        (fun e => decide (dedupKey e.2 = k))).head? =
      (l.enum.filter (fun e => decide (dedupKey e.2 = k))).head? := by
  have hperm : ((List.insertionSort entryLe l.enum).filter
        (fun e => decide (dedupKey e.2 = k))).Perm
      (l.enum.filter (fun e => decide (dedupKey e.2 = k))) :=
    (List.perm_insertionSort entryLe l.enum).filter _
  cases hF : (List.insertionSort entryLe l.enum).filter
      (fun e => decide (dedupKey e.2 = k)) with
  | nil =>
    rw [hF] at hperm
    rw [hperm.symm.eq_nil]
  | cons f F' =>
    have hsorted : List.Sorted entryLe ((List.insertionSort entryLe l.enum).filter
        (fun e => decide (dedupKey e.2 = k))) :=
      List.Sorted.filter _ (List.sorted_insertionSort entryLe l.enum)
    rw [hF] at hperm hsorted
    cases hF0 : l.enum.filter (fun e => decide (dedupKey e.2 = k)) with
    | nil =>
      rw [hF0] at hperm
      exact absurd hperm.eq_nil (by simp)
    | cons f₀ F₀' =>
      rw [hF0] at hperm
      simp only [List.head?_cons, Option.some_inj]
      have hkey : ∀ x ∈ f₀ :: F₀', dedupKey x.2 = k := by
        intro x hx
        rw [← hF0] at hx
        exact of_decide_eq_true (List.mem_filter.1 hx).2
      have hkeyF : ∀ x ∈ f :: F', dedupKey x.2 = k :=
        fun x hx => hkey x (hperm.subset hx)
      have hpw : (f₀ :: F₀').Pairwise (fun a b => (a.1 : ℕ) < b.1) := by
        rw [← hF0, List.enum_eq_enumFrom]
        exact List.Pairwise.sublist (List.filter_sublist _)
          (enumFrom_pairwise_fst_lt 0 l)
      have hf0mem : f₀ ∈ f :: F' := hperm.mem_iff.2 (List.mem_cons_self f₀ F₀')
      have hfmem : f ∈ f₀ :: F₀' := hperm.subset (List.mem_cons_self f F')
      rcases List.mem_cons.1 hf0mem with heq | hmem

      · exact heq.symm
      · have hle : entryLe f f₀ := (List.sorted_cons.1 hsorted).1 f₀ hmem
        have hidx : f.1 ≤ f₀.1 := entryLe_idx_le
          (by rw [hkeyF f (List.mem_cons_self f F'), hkey f₀ (List.mem_cons_self f₀ F₀')])
          hle
        rcases List.mem_cons.1 hfmem with heq | hmem2
        · exact heq
        · have := (List.pairwise_cons.1 hpw).1 f hmem2
          omega

/-- The curated survivors with a given dedup key are exactly the first
bronze row carrying that key (when the key occurs at all). -/
theorem silverDedup_filter_eq (l : List BronzeRow) (k : ℤ × String × String) :
    (silverDedup l).filter (fun x => decide (dedupKey x = k)) =
      ((l.filter (fun x => decide (dedupKey x = k))).head?).toList := by
  unfold silverDedup
  rw [List.filter_map]
  have hcomp : ((fun x => decide (dedupKey x = k)) ∘ (Prod.snd : SortEntry → BronzeRow)) =
      fun e : SortEntry => decide (dedupKey e.2 = k) := rfl
  rw [hcomp, dropDupFirst_filter_head k _ [] (by simp), sorted_filter_head l k]
  have hms := enumFrom_filter_map_snd (fun x => decide (dedupKey x = k))
    (fun e : ℕ × BronzeRow => decide (dedupKey e.2 = k)) (fun _ => rfl) 0 l
  rw [List.enum_eq_enumFrom]
  cases ho : (List.enumFrom 0 l).filter
      (fun e : ℕ × BronzeRow => decide (dedupKey e.2 = k)) with
  | nil =>
    rw [ho] at hms
    rw [← hms]
    rfl
  | cons f F =>
    rw [ho] at hms
    rw [← hms]
    rfl

/-- The output of the dedup block is a subset of its input. -/
theorem dropDupFirst_sublist :
    ∀ (es : List SortEntry) (seen : List (ℤ × String × String)),
      (dropDupFirst seen es).Sublist es := by
  intro es
  induction es with
  | nil => intro seen; simp [dropDupFirst]
  | cons e es ih =>
    intro seen
    simp only [dropDupFirst]
    split
    · exact (ih seen).cons e
    · exact (ih _).cons₂ e

/-- Every curated survivor is one of the input rows. -/
theorem silverDedup_subset (l : List BronzeRow) : ∀ x ∈ silverDedup l, x ∈ l := by
  intro x hx
  unfold silverDedup at hx
  obtain ⟨e, he, rfl⟩ := List.mem_map.1 hx
  have h1 : e ∈ List.insertionSort entryLe l.enum :=
    (dropDupFirst_sublist _ []).subset he
  have h2 : e ∈ l.enum := (List.perm_insertionSort entryLe l.enum).subset h1
  have h3 := List.enum_map_snd l
  rw [← h3]
  exact List.mem_map_of_mem Prod.snd h2

/-- Every dedup key occurring in the input still occurs among the
survivors. -/
theorem silverDedup_covers (l : List BronzeRow) (r : BronzeRow) (hr : r ∈ l) :
    ∃ h ∈ silverDedup l, dedupKey h = dedupKey r := by
  have heq := silverDedup_filter_eq l (dedupKey r)
  have hne : l.filter (fun x => decide (dedupKey x = dedupKey r)) ≠ [] :=
    List.ne_nil_of_mem (List.mem_filter.2 ⟨hr, by simp⟩)
  cases ho : (l.filter (fun x => decide (dedupKey x = dedupKey r))).head? with
  | none => exact absurd (List.head?_eq_none_iff.1 ho) hne
  | some r₀ =>
    have hmem : r₀ ∈ (silverDedup l).filter
        (fun x => decide (dedupKey x = dedupKey r)) := by
      rw [heq, ho]
      simp
    have hm := List.mem_filter.1 hmem
    exact ⟨r₀, hm.1, of_decide_eq_true hm.2⟩

/-- C3: for every input batch and every record in it, exactly one record
with its dedup key `(event_time, farm_id, turbine_id)` survives the
dedup block (stable sort by key, mark every record after the first
occurrence, drop the marked ones), and the survivor is the record at the
earliest original arrival position among the tied records — i.e. the one
`find?` returns on the unsorted input. -/
theorem silver_dedup_keeps_earliest (l : List BronzeRow) (r : BronzeRow)
    (hr : r ∈ l) :
    ∃ r₀, l.find? (fun x => decide (dedupKey x = dedupKey r)) = some r₀ ∧
      (silverDedup l).filter (fun x => decide (dedupKey x = dedupKey r)) = [r₀] := by
  have hfind := find?_eq_head?_filter (fun x => decide (dedupKey x = dedupKey r)) l
  have hne : l.filter (fun x => decide (dedupKey x = dedupKey r)) ≠ [] :=
    List.ne_nil_of_mem (List.mem_filter.2 ⟨hr, by simp⟩)
  cases ho : (l.filter (fun x => decide (dedupKey x = dedupKey r))).head? with
  | none => exact absurd (List.head?_eq_none_iff.1 ho) hne
  | some r₀ =>
    refine ⟨r₀, ?_, ?_⟩
    · rw [hfind, ho]
    · rw [silverDedup_filter_eq, ho]
      rfl

/-- Witness for C3: two records sharing a dedup key but differing in
power; the survivor is the first-arriving one, `rowA`. -/
theorem silver_dedup_keeps_earliest_witness :
    ∃ r₀, List.find? (fun x => decide (dedupKey x = dedupKey rowC)) [rowA, rowC] =
        some r₀ ∧
      (silverDedup [rowA, rowC]).filter
        (fun x => decide (dedupKey x = dedupKey rowC)) = [r₀] :=
  silver_dedup_keeps_earliest [rowA, rowC] rowC (by simp)

/-! ### C1 — idempotence of the curation stage

The claim is false as stated: the dedup key omits `sim_run_id` while the
process key includes it, so a dropped cross-run duplicate's bucket key is
never recorded and the second run re-processes it (see
`silver_second_run_not_noop_cex`).  When every two records sharing a
dedup key also share a `sim_run_id`, the claim holds
(`silver_second_run_noop_of_coherent`). -/

/-- The curation stage never changes the bronze dataset. -/
theorem silverRun_bronze (w : Bool) (s : SilverState) :
    ((silverRun w s).2).bronze = s.bronze := by
  simp only [silverRun]
  split
  · rfl
  · split
    · rfl
    · split
      · rfl
      · rfl

/-- Counterexample to C1 as stated: on a bronze dataset holding two
records with the same `(event_time, farm_id, turbine_id)` but different
`sim_run_id`, the first run (which succeeds) drops the cross-run
duplicate and records only the survivor's bucket key, so the second run
— with no new raw data — writes a new curated row and changes the
persisted processed-set. -/
theorem silver_second_run_not_noop_cex :
    ((silverRun true ((silverRun true cexState).2)).1 = .ok "data_lake/silver"
        ∧ (silverRun true cexState).1 = .ok "data_lake/silver")
    ∧ (silverRun true ((silverRun true cexState).2)).2.silver ≠
        (silverRun true cexState).2.silver
    ∧ (silverRun true ((silverRun true cexState).2)).2.processed ≠
        (silverRun true cexState).2.processed := by
  decide

/-- C1 (amended): running the curation stage twice in succession with no
new raw data added in between is idempotent — the second run writes zero
new curated rows, leaves the persisted processed-set unchanged, and
returns the existing silver output location — provided the bronze
dataset is nonempty (so the first run succeeds rather than raising) and
any two bronze records sharing the dedup key
`(event_time, farm_id, turbine_id)` also share their `sim_run_id` (so a
dropped duplicate's bucket key is always recorded via its survivor). -/
theorem silver_second_run_noop_of_coherent (s : SilverState)
    (hb : s.bronze ≠ [])
    (hcoh : ∀ r1 ∈ s.bronze, ∀ r2 ∈ s.bronze,
      dedupKey r1 = dedupKey r2 → r1.sim_run_id = r2.sim_run_id) :
    silverRun true ((silverRun true s).2) =
      (.ok "data_lake/silver", (silverRun true s).2) := by
  have hbronze : ((silverRun true s).2).bronze = s.bronze := silverRun_bronze true s
  have hcov : ∀ r ∈ s.bronze, pkeyOf r ∈ ((silverRun true s).2).processed := by
    intro r hr
    by_cases hnew : s.bronze.filter (fun r => !decide (pkeyOf r ∈ s.processed)) = []
    · have hs1 : (silverRun true s).2 = s := by
        simp only [silverRun]
        rw [if_neg hb, if_pos hnew]
      rw [hs1]
      have := List.filter_eq_nil_iff.1 hnew r hr
      simpa using this
    · have hs1p : ((silverRun true s).2).processed =
          s.processed ∪ ((silverDedup (s.bronze.filter
            (fun r => !decide (pkeyOf r ∈ s.processed)))).map pkeyOf).toFinset := by
        simp only [silverRun]
        rw [if_neg hb, if_neg hnew]
        rfl
      rw [hs1p]
      by_cases hp : pkeyOf r ∈ s.processed
      · exact Finset.mem_union_left _ hp
      · have hrN : r ∈ s.bronze.filter (fun r => !decide (pkeyOf r ∈ s.processed)) :=
          List.mem_filter.2 ⟨hr, by simp [hp]⟩
        obtain ⟨h, hhmem, hhk⟩ := silverDedup_covers _ r hrN
        have hhb : h ∈ s.bronze :=
          (List.mem_filter.1 (silverDedup_subset _ h hhmem)).1
        have hsim : h.sim_run_id = r.sim_run_id := hcoh h hhb r hr hhk
        have hpk : pkeyOf h = pkeyOf r := by
          obtain ⟨ht, hf, -⟩ : h.event_time = r.event_time ∧
              h.farm_id = r.farm_id ∧ h.turbine_id = r.turbine_id := by
            simpa [dedupKey, Prod.ext_iff] using hhk
          simp [pkeyOf, ht, hf, hsim]
        refine Finset.mem_union_right _ ?_
        rw [← hpk]
        exact List.mem_toFinset.2 (List.mem_map_of_mem pkeyOf hhmem)
  have hb1 : ((silverRun true s).2).bronze ≠ [] := by
    rw [hbronze]
    exact hb
  have hnew2 : ((silverRun true s).2).bronze.filter
      (fun r => !decide (pkeyOf r ∈ ((silverRun true s).2).processed)) = [] := by
    rw [hbronze]
    apply List.filter_eq_nil_iff.2
    intro r hr
    simp [hcov r hr]
  generalize hgen : (silverRun true s).2 = s1 at hb1 hnew2 ⊢
  simp only [silverRun]
  rw [if_neg hb1, if_pos hnew2]

/-- Witness for C1 (amended): a two-row bronze lake whose duplicate pair
shares its `sim_run_id`; the second run is a no-op returning the silver
location. -/
theorem silver_second_run_noop_of_coherent_witness :
    silverRun true ((silverRun true witState).2) =
      (.ok "data_lake/silver", (silverRun true witState).2) :=
  silver_second_run_noop_of_coherent witState (by decide) (by decide)

/-! ### C2 — the processed-set is extended only after a successful persist -/

/-- C2: for the curation stage and both aggregation rollups, a failing
output persist (`writeOk = false`) leaves the stage's persisted
processed-set untouched; and on a successful run each processed-set is
extended with exactly the bucket keys of the rows actually appended to
the output dataset in that run — so a key in the set always corresponds
to a fully written bucket. -/
theorem processed_set_extended_only_after_persist (s : SilverState)
    (g : GoldState) (dt rated : ℚ) :
    ((silverRun false s).2.processed = s.processed)
    ∧ ((goldRunHourlyEnergy false dt g).2.processedHourly = g.processedHourly)
    ∧ ((goldRunFarmKpis false dt rated g).2.processedKpis = g.processedKpis)
    ∧ ((silverRun true s).2.processed = s.processed ∪
        (((silverRun true s).2.silver.drop s.silver.length).map
          (fun sr => pkeyOf sr.row)).toFinset)
    ∧ ((goldRunHourlyEnergy true dt g).2.processedHourly = g.processedHourly ∪
        (((goldRunHourlyEnergy true dt g).2.hourly.drop g.hourly.length).map
          hourlyPkey).toFinset)
    ∧ ((goldRunFarmKpis true dt rated g).2.processedKpis = g.processedKpis ∪
        (((goldRunFarmKpis true dt rated g).2.kpis.drop g.kpis.length).map
          kpiPkey).toFinset) := by
  refine ⟨?_, ?_, ?_, ?_, ?_, ?_⟩
  · simp only [silverRun]
    split
    · rfl
    · split
      · rfl
      · rfl
  · simp only [goldRunHourlyEnergy]
    split
    · rfl
    · split
      · rfl
      · rfl
  · simp only [goldRunFarmKpis]
    split
    · rfl
    · split
      · rfl
      · rfl
  · simp only [silverRun]
    split
    · simp
    · split
      · simp
      · have hcm : ((fun sr : SilverRow => pkeyOf sr.row) ∘
            mkSilverRow defaultConstraints) = pkeyOf := rfl
        simp [List.drop_left, List.map_map, hcm]
  · simp only [goldRunHourlyEnergy]
    split
    · simp
    · split
      · simp
      · simp [List.drop_left]
  · simp only [goldRunFarmKpis]
    split
    · simp
    · split
      · simp
      · simp [List.drop_left]

end WindFarmTwin
